import Mathlib

/-!
Verification of the nypd-docs scraping/upload pipeline (src/scrape.js).

The JavaScript source is shallowly embedded: network fetches, HTML/CSV/JSON
parsing and the pdftk binary decoder are the external-world boundary and are
modelled as inputs (a World record of adapter payloads, a per-document decoded
text function, and a per-chunk upload responder).  Everything downstream of
that boundary - URL canonicalization, the ledger-derived known-URL set, the
candidate filter, the regex link scan, chunking, the rate-limit delay, the
fail-fast upload loop and the process exit-code threading - is translated
directly from the source.
-/

/-- Model of adding one element to a JavaScript Set (insertion order kept,
no duplicates): a no-op when the element is already present. -/
def setAdd (s : List String) (u : String) : List String :=
  if u ∈ s then s else s ++ [u]

/-- Model of building a JavaScript Set from an array: fold setAdd. -/
def jsSetOfList (xs : List String) : List String :=
  xs.foldl setAdd []

theorem mem_foldl_setAdd (xs : List String) :
    ∀ (acc : List String) (u : String), u ∈ xs.foldl setAdd acc ↔ u ∈ acc ∨ u ∈ xs := by
  induction xs with
  | nil => intro acc u; simp
  | cons x xs ih =>
    intro acc u
    simp only [List.foldl_cons, ih, setAdd]
    by_cases hx : x ∈ acc
    · simp only [if_pos hx, List.mem_cons]
      constructor
      · rintro (h | h)
        · exact Or.inl h
        · exact Or.inr (Or.inr h)
      · rintro (h | h | h)
        · exact Or.inl h
        · exact Or.inl (h ▸ hx)
        · exact Or.inr h
    · simp only [if_neg hx, List.mem_append, List.mem_singleton, List.mem_cons]
      tauto

theorem mem_jsSetOfList (xs : List String) (u : String) :
    u ∈ jsSetOfList xs ↔ u ∈ xs := by
  simp [jsSetOfList, mem_foldl_setAdd]

theorem nodup_foldl_setAdd (xs : List String) :
    ∀ (acc : List String), acc.Nodup → (xs.foldl setAdd acc).Nodup := by
  induction xs with
  | nil => intro acc h; simpa using h
  | cons x xs ih =>
    intro acc h
    simp only [List.foldl_cons]
    apply ih
    unfold setAdd
    by_cases hx : x ∈ acc
    · simpa [hx] using h
    · simp only [if_neg hx]
      exact List.Nodup.append h (List.nodup_singleton x) (by
        intro a ha hb
        simp only [List.mem_singleton] at hb
        exact hx (hb ▸ ha))

theorem nodup_jsSetOfList (xs : List String) : (jsSetOfList xs).Nodup :=
  nodup_foldl_setAdd xs [] List.nodup_nil

/-- Model of JavaScript String.prototype.replaceAll with a string pattern:
leftmost non-overlapping replacement.  Fuel-driven so that it reduces in the
kernel; the wrapper supplies fuel equal to the string length, which is enough
because every step consumes at least one character. -/
def replaceAllGo (pat rep : List Char) : Nat → List Char → List Char
  | 0, s => s
  | _ + 1, [] => []
  | fuel + 1, c :: cs =>
    if pat.isPrefixOf (c :: cs) ∧ pat ≠ [] then
      rep ++ replaceAllGo pat rep fuel ((c :: cs).drop pat.length)
    else
      c :: replaceAllGo pat rep fuel cs

/-- url.replaceAll(pat, rep) from the source, on Lean strings. -/
def jsReplaceAllStr (s pat rep : String) : String :=
  ⟨replaceAllGo pat.data rep.data s.data.length s.data⟩

/-- First index at which pat occurs as a contiguous block of s (JavaScript
String.prototype.indexOf). -/
def findSub (pat : List Char) : List Char → Option Nat
  | [] => if pat = [] then some 0 else none
  | c :: cs => if pat.isPrefixOf (c :: cs) then some 0 else (findSub pat cs).map (· + 1)

/-- Model of JavaScript String.prototype.replace with a string pattern:
replace only the first occurrence, or return the string unchanged. -/
def jsReplaceFirst (s pat rep : String) : String :=
  match findSub pat.data s.data with
  | none => s
  | some i => ⟨s.data.take i ++ rep.data ++ s.data.drop (i + pat.data.length)⟩

/-- Model of JavaScript String.prototype.split with a one-character
separator: always returns at least one (possibly empty) piece. -/
def splitOnCharGo (sep : Char) : List Char → List Char → List (List Char)
  | [], acc => [acc.reverse]
  | c :: cs, acc =>
    if c = sep then acc.reverse :: splitOnCharGo sep cs []
    else splitOnCharGo sep cs (c :: acc)

def jsSplitChar (s : String) (sep : Char) : List String :=
  (splitOnCharGo sep s.data []).map (fun l => ⟨l⟩)

/-!
Model of the link-scanning regular expression of getApuLinkedDocs:
out.toString().match(/https?:\/\/.+\.pdf/g).

JavaScript semantics embedded here: the scan finds successive leftmost
matches; each match takes the scheme, then a greedy dot-plus (any characters
except line terminators, as many as possible) followed by the literal text
".pdf"; scanning resumes after the end of each match; the whole call returns
null when there is no match at all.
-/

/-- Number of leading characters matchable by the dot (no line terminators). -/
def dotSpan : List Char → Nat
  | [] => 0
  | c :: cs => if c = '\n' ∨ c = '\r' then 0 else dotSpan cs + 1

/-- Strip one of the schemes accepted by the pattern, longest first. -/
def matchScheme (cs : List Char) : Option (List Char × List Char) :=
  if ("https://".data).isPrefixOf cs then some ("https://".data, cs.drop 8)
  else if ("http://".data).isPrefixOf cs then some ("http://".data, cs.drop 7)
  else none

/-- Greedy search for the body length k (at least 1) such that ".pdf" follows:
scan downward from the dot-span so the longest body wins. -/
def findBodyEndGo (rest : List Char) : Nat → Option Nat
  | 0 => none
  | k + 1 =>
    if (".pdf".data).isPrefixOf (rest.drop (k + 1)) then some (k + 1)
    else findBodyEndGo rest k

def findBodyEnd (rest : List Char) : Option Nat :=
  findBodyEndGo rest (dotSpan rest)

/-- One regex match attempt anchored at the head of the list; on success
returns the matched characters and the remainder of the input. -/
def matchAt (cs : List Char) : Option (List Char × List Char) :=
  match matchScheme cs with
  | none => none
  | some (scheme, rest) =>
    match findBodyEnd rest with
    | none => none
    | some k => some (scheme ++ rest.take k ++ ".pdf".data, rest.drop (k + 4))

/-- All successive leftmost matches (the /g flag).  Fuel-driven: every step
consumes at least one character, so fuel equal to the length is exact. -/
def jsMatchAllAux : Nat → List Char → List (List Char)
  | 0, _ => []
  | _ + 1, [] => []
  | fuel + 1, c :: cs =>
    match matchAt (c :: cs) with
    | some (m, rest) => m :: jsMatchAllAux fuel rest
    | none => jsMatchAllAux fuel cs

/-- out.toString().match(/https?:\/\/.+\.pdf/g) - null is modelled as none. -/
def jsMatch (s : String) : Option (List String) :=
  let ms := jsMatchAllAux s.data.length s.data
  if ms.isEmpty then none else some (ms.map (fun l => ⟨l⟩))

example : jsMatch "see http://x.pdf today" = some ["http://x.pdf"] := by decide
example : jsMatch "nothing here" = none := by decide
example : jsReplaceAllStr "a b c.pdf" " " "%20" = "a%20b%20c.pdf" := by decide
example : jsSplitChar "a/b/c" '/' = ["a", "b", "c"] := by decide

/-! ## Data model (src/scrape.js constants and record shapes) -/

/-- One record of documents.json, the persisted ledger.  Records written by
the pipeline carry only source_url and permanent_url; alternate_urls is the
optional field some hand-maintained records carry (absent modelled as []). -/
structure LedgerEntry where
  source_url : String
  permanent_url : String
  alternate_urls : List String
deriving DecidableEq

/-- The parsed documents.json object. -/
structure Ledger where
  documents : List LedgerEntry
deriving DecidableEq

/-- The DocumentCloud creation-request object built by createDocument. -/
structure Document where
  access : String
  tags : List String
  file_url : String
  source : String
  title : String
deriving DecidableEq

/-- One {source_url, permanent_url} result row pushed by uploadDocs. -/
structure Added where
  source_url : String
  permanent_url : String
deriving DecidableEq

/-- One element of the JSON array DocumentCloud returns for a POST. -/
structure RespItem where
  canonical_url : String
deriving DecidableEq

/-- Outcome of one POST /api/documents/ call: a non-ok HTTP response or a
parsed JSON array. -/
inductive ChunkResp where
  | httpError (text : String)
  | ok (items : List RespItem)
deriving DecidableEq

/-- Observable effects of the upload loop: the rate-limit suspension and the
submission of one chunk. -/
inductive UploadEvent where
  | delay (ms : Nat)
  | submit (docs : List Document)
deriving DecidableEq

/-- What uploadDocs produces: the accumulated result rows, the event trace,
and the process.exitCode cell after the loop. -/
structure UploadResult where
  addedDocs : List Added
  trace : List UploadEvent
  exitCode : Option Nat
deriving DecidableEq

/-- Outcome of one GET of the validator pagination loop: a non-ok response,
or a page carrying the status strings of its documents and whether a next
link is present. -/
inductive FetchOutcome where
  | fail (msg : String)
  | page (statuses : List String) (hasNext : Bool)
deriving DecidableEq

/-- The external world of one run: everything the script reads over the
network, at the fetch/parse boundary.  Each adapter payload is the URL list
its fetch+parse yields, or a rejection; apuContent is the decompressed text
pdftk produces for a given APU document URL, or a rejection; uploadResp is
the remote response to the i-th POSTed chunk. -/
structure World where
  validatorOutcomes : List FetchOutcome
  profileRaw : Except String (List String)
  departureRaw : Except String (List String)
  trialRaw : Except String (List String)
  closingFilenamesRaw : Except String (List String)
  apuRaw : Except String (List String)
  annualRaw : Except String (List String)
  apuContent : String → Except String String
  uploadResp : Nat → List Document → ChunkResp

/-- What a completed run leaves behind: the ledger written by
writeUpdatedDocs, the newly uploaded rows, the final process.exitCode, and
(for specification purposes) the aggregated candidate list examined. -/
structure RunResult where
  ledger : Ledger
  newDocs : List Added
  exitCode : Option Nat
  candidates : List String
deriving DecidableEq

/-- const DRY_RUN = false. -/
def DRY_RUN : Bool := false

/-- const DOCS_PER_REQUEST = 25. -/
def DOCS_PER_REQUEST : Nat := 25

/-- const EXTRA_DOCS = [...]. -/
def EXTRA_DOCS : List String :=
  ["https://www1.nyc.gov/assets/ccrb/downloads/pdf/APU-Documents/201910097-Tax957907-APU-Final-Documents.pdf",
   "https://www1.nyc.gov/assets/ccrb/downloads/pdf/APU-Documents/202002792-Tax961613-APU-Final-Documents.pdf",
   "https://www1.nyc.gov/assets/ccrb/downloads/pdf/APU-Documents/202306511-Tax968628-APU-Final-Documents.pdf",
   "https://www1.nyc.gov/assets/ccrb/downloads/pdf/APU-Documents/202304412-Tax967059-APU-Final-Documents.pdf",
   "https://www1.nyc.gov/assets/ccrb/downloads/pdf/APU-Documents/202304127-Tax963837-APU-Final-Documents.pdf"]

/-- const DOCS_TO_SKIP = new Set([...]); only membership is used. -/
def DOCS_TO_SKIP : List String :=
  ["https://www1.nyc.gov/assets/ccrb/downloads/pdf/APU-Documents/202306511-Tax968628%20-APU-Final-Documents.pdf",
   "https://www1.nyc.gov/assets/ccrb/downloads/pdf/APU-Documents/202304412-Tax963837-APU-Final-Documents.pdf",
   "https://www1.nyc.gov/assets/ccrb/downloads/pdf/APU-Documents/2202304127-Tax963837-APU-Final-Documents.pdf"]

/-! ## The pipeline functions, translated from src/scrape.js -/

/-- getExistingDocsSet: the Set of every record source_url plus every
alternate_urls element. -/
def getExistingDocsSet (existingDocs : Ledger) : List String :=
  ((existingDocs.documents.map (fun e => e.source_url)) ++
      existingDocs.documents.flatMap (fun e => e.alternate_urls)).foldl setAdd []

/-- createDocument: the DocumentCloud JSON object for one source URL; the
title is the last slash-separated component. -/
def createDocument (sourceUrl : String) : Document :=
  let urlParts := jsSplitChar sourceUrl '/'
  { access := "public"
    tags := ["NYPD"]
    file_url := sourceUrl
    source := sourceUrl
    title := urlParts.getLastD "" }

/-- checkDocCount: set process.exitCode = 59 when an adapter yields fewer
documents than its expected minimum; otherwise leave the cell alone. -/
def checkDocCount (docType : String) (expected : Nat) (docs : List String)
    (ec : Option Nat) : Option Nat :=
  if docs.length < expected then some 59 else ec

/-- The pagination loop of checkDocuments: on a non-ok response set
process.exitCode = 62 and return the -1 sentinel; otherwise count documents
whose status is not the terminal success value and follow the next link. -/
def checkDocumentsGo : List FetchOutcome → Int → Option Nat → Int × Option Nat
  | [], badDocCount, ec => (badDocCount, ec)
  | o :: rest, badDocCount, ec =>
    match o with
    | FetchOutcome.fail _ => (-1, some 62)
    | FetchOutcome.page statuses hasNext =>
      let badDocCount := badDocCount + (statuses.filter (fun s => s != "success")).length
      if hasNext then checkDocumentsGo rest badDocCount ec else (badDocCount, ec)

def checkDocuments (outcomes : List FetchOutcome) (ec : Option Nat) : Int × Option Nat :=
  checkDocumentsGo outcomes 0 ec

/-- Lines 50-56 of start: run checkDocuments, then set process.exitCode = 58
whenever the returned count is nonzero - the -1 transport sentinel included,
so the 62 written inside checkDocuments is immediately overwritten. -/
def validatorPhase (outcomes : List FetchOutcome) (ec : Option Nat) : Int × Option Nat :=
  let r := checkDocuments outcomes ec
  (r.1, if r.1 ≠ 0 then some 58 else r.2)

/-- getProfileDocs: the flattened profile-document URLs, health-checked
against an expected minimum of 800.  A fetch rejection propagates. -/
def getProfileDocs (w : World) (ec : Option Nat) : Except String (List String × Option Nat) :=
  match w.profileRaw with
  | Except.error e => Except.error e
  | Except.ok docs => Except.ok (docs, checkDocCount "profile" 800 docs ec)

/-- getDepartureLetters: FileLink URLs, expected minimum 225. -/
def getDepartureLetters (w : World) (ec : Option Nat) : Except String (List String × Option Nat) :=
  match w.departureRaw with
  | Except.error e => Except.error e
  | Except.ok docs => Except.ok (docs, checkDocCount "departure letter" 225 docs ec)

/-- getTrialDecisions: record URLs, expected minimum 1650. -/
def getTrialDecisions (w : World) (ec : Option Nat) : Except String (List String × Option Nat) :=
  match w.trialRaw with
  | Except.error e => Except.error e
  | Except.ok docs => Except.ok (docs, checkDocCount "trial decision" 1650 docs ec)

/-- getCcrbClosingReports: CSV filenames mapped onto the canonical host
directory, expected minimum 3150. -/
def getCcrbClosingReports (w : World) (ec : Option Nat) : Except String (List String × Option Nat) :=
  match w.closingFilenamesRaw with
  | Except.error e => Except.error e
  | Except.ok filenames =>
    let docs := filenames.map
      (fun filename => "https://www1.nyc.gov/assets/ccrb/downloads/pdf/closing-reports/" ++ filename)
    Except.ok (docs, checkDocCount "CCRB closing report" 3150 docs ec)

/-- getApuDocs: PDF anchors of the APU quarterly-reports page, expected
minimum 25. -/
def getApuDocs (w : World) (ec : Option Nat) : Except String (List String × Option Nat) :=
  match w.apuRaw with
  | Except.error e => Except.error e
  | Except.ok docs => Except.ok (docs, checkDocCount "APU" 25 docs ec)

/-- getCCRBAnnualReports: PDF anchors of the annual-reports page, expected
minimum 50. -/
def getCCRBAnnualReports (w : World) (ec : Option Nat) : Except String (List String × Option Nat) :=
  match w.annualRaw with
  | Except.error e => Except.error e
  | Except.ok docs => Except.ok (docs, checkDocCount "CCRB annual reports" 50 docs ec)

/-- The www to www1 host folding applied to each regex match:
url.replace(aliased-host directory, canonical-host directory) - a
first-occurrence replacement. -/
def normalizeWww (url : String) : String :=
  jsReplaceFirst url "https://www.nyc.gov/assets/ccrb/downloads/pdf/"
    "https://www1.nyc.gov/assets/ccrb/downloads/pdf/"

/-- The loop body of getApuLinkedDocs: fetch and decode each APU document
(a rejection propagates - the source has no try/catch), scan the decoded
text, and when the match is not null push the per-document Set of folded
URLs. -/
def getApuLinkedDocsGo (content : String → Except String String) :
    List String → List String → Except String (List String)
  | [], docs => Except.ok docs
  | apuDoc :: rest, docs =>
    match content apuDoc with
    | Except.error e => Except.error e
    | Except.ok out =>
      match jsMatch out with
      | none => getApuLinkedDocsGo content rest docs
      | some urls =>
        getApuLinkedDocsGo content rest (docs ++ jsSetOfList (urls.map normalizeWww))

/-- getApuLinkedDocs: one-hop link extraction over the APU documents.  The
existingDocs parameter is accepted and unused, exactly as in the source
(the skip-when-known branch is commented out there). -/
def getApuLinkedDocs (content : String → Except String String) (apuDocs : List String)
    (existingDocs : List String) (ec : Option Nat) :
    Except String (List String × Option Nat) :=
  match getApuLinkedDocsGo content apuDocs [] with
  | Except.error e => Except.error e
  | Except.ok docs => Except.ok (docs, checkDocCount "APU linked" 0 docs ec)

/-- Lines 61-86 of start: run every adapter in source order, concatenate
their outputs followed by EXTRA_DOCS, and percent-encode spaces in every
candidate. -/
def aggregatedDocs (w : World) (existingDocsSet : List String) (ec : Option Nat) :
    Except String (List String × Option Nat) :=
  match getProfileDocs w ec with
  | Except.error e => Except.error e
  | Except.ok (profileDocs, ec) =>
  match getApuDocs w ec with
  | Except.error e => Except.error e
  | Except.ok (apuDocs, ec) =>
  match getApuLinkedDocs w.apuContent apuDocs existingDocsSet ec with
  | Except.error e => Except.error e
  | Except.ok (apuLinkedDocs, ec) =>
  match getCCRBAnnualReports w ec with
  | Except.error e => Except.error e
  | Except.ok (ccrbAnnualReports, ec) =>
  match getDepartureLetters w ec with
  | Except.error e => Except.error e
  | Except.ok (departureLetters, ec) =>
  match getTrialDecisions w ec with
  | Except.error e => Except.error e
  | Except.ok (trialDecisions, ec) =>
  match getCcrbClosingReports w ec with
  | Except.error e => Except.error e
  | Except.ok (ccrbClosingReports, ec) =>
    Except.ok
      ((profileDocs ++ apuDocs ++ apuLinkedDocs ++ ccrbAnnualReports ++
          departureLetters ++ trialDecisions ++ ccrbClosingReports ++ EXTRA_DOCS).map
        (fun url => jsReplaceAllStr url " " "%20"), ec)

/-- The filter loop of processDocs: keep a candidate when it is neither in
the known-URL set nor in DOCS_TO_SKIP, and add every kept candidate to the
set before later candidates are examined.  Returns the newDocuments list
and the final set. -/
def processDocsLoop : List String → List String → List Document × List String
  | [], existingDocs => ([], existingDocs)
  | url :: rest, existingDocs =>
    if url ∉ existingDocs ∧ url ∉ DOCS_TO_SKIP then
      let r := processDocsLoop rest (setAdd existingDocs url)
      (createDocument url :: r.1, r.2)
    else
      processDocsLoop rest existingDocs

/-- The newDocuments list processDocs hands to the uploader. -/
def newDocumentsOf (docUrls existingDocs : List String) : List Document :=
  (processDocsLoop docUrls existingDocs).1

/-- The slice loop of uploadDocs: docs.slice(i*25, (i+1)*25) for i below
the ceiling of length/25, as successive take/drop chunks.  Fuel-driven so it
reduces in the kernel; fuel equal to the length is enough. -/
def chunkDocsGo : Nat → List Document → List (List Document)
  | 0, _ => []
  | fuel + 1, docs =>
    if docs = [] then []
    else docs.take DOCS_PER_REQUEST :: chunkDocsGo fuel (docs.drop DOCS_PER_REQUEST)

def chunkDocs (docs : List Document) : List (List Document) :=
  chunkDocsGo docs.length docs

/-- The result rows pushed for one accepted chunk: requestDocs[i].file_url
paired with data[i].canonical_url. -/
def zipAdded (requestDocs : List Document) (items : List RespItem) : List Added :=
  (requestDocs.zip items).map (fun p => ⟨p.1.file_url, p.2.canonical_url⟩)

/-- The upload loop of uploadDocs over the chunk list: suspend 100ms before
every chunk except the first; submit; on a non-ok response set
process.exitCode = 60 and return the accumulated rows; on a length mismatch
set 61 and return the accumulated rows; otherwise accumulate and continue.
The DRY_RUN branch substitutes placeholder permanent URLs and submits
nothing. -/
def uploadGo (resp : Nat → List Document → ChunkResp) :
    List (List Document) → Nat → List Added → List UploadEvent → Option Nat → UploadResult
  | [], _, addedDocs, trace, ec => ⟨addedDocs, trace, ec⟩
  | requestDocs :: rest, i, addedDocs, trace, ec =>
    let trace := if i ≠ 0 then trace ++ [UploadEvent.delay 100] else trace
    if DRY_RUN then
      uploadGo resp rest (i + 1)
        (addedDocs ++ requestDocs.map (fun d => ⟨d.file_url, "DRY_RUN_PLACEHOLDER"⟩)) trace ec
    else
      let trace := trace ++ [UploadEvent.submit requestDocs]
      match resp i requestDocs with
      | ChunkResp.httpError _ => ⟨addedDocs, trace, some 60⟩
      | ChunkResp.ok data =>
        if data.length ≠ requestDocs.length then ⟨addedDocs, trace, some 61⟩
        else uploadGo resp rest (i + 1) (addedDocs ++ zipAdded requestDocs data) trace ec

/-- uploadDocs: chunk the documents and run the upload loop. -/
def uploadDocs (resp : Nat → List Document → ChunkResp) (docs : List Document)
    (ec : Option Nat) : UploadResult :=
  uploadGo resp (chunkDocs docs) 0 [] [] ec

/-- processDocs: filter the candidates, then upload the new documents. -/
def processDocs (resp : Nat → List Document → ChunkResp) (docUrls existingDocs : List String)
    (ec : Option Nat) : UploadResult :=
  uploadDocs resp (newDocumentsOf docUrls existingDocs) ec

/-- The entry in documents.json written for one uploaded row. -/
def addedToEntry (a : Added) : LedgerEntry :=
  ⟨a.source_url, a.permanent_url, []⟩

/-- start: validator phase, known-URL set, aggregation, filter-and-upload,
ledger append, write-back.  An adapter rejection propagates and aborts the
run (there is no try/catch in the source). -/
def start (w : World) (existingDocs : Ledger) : Except String RunResult :=
  let v := validatorPhase w.validatorOutcomes none
  let existingDocsSet := getExistingDocsSet existingDocs
  match aggregatedDocs w existingDocsSet v.2 with
  | Except.error e => Except.error e
  | Except.ok (allDocs, ec) =>
    let ur := processDocs w.uploadResp allDocs existingDocsSet ec
    Except.ok
      { ledger := ⟨existingDocs.documents ++ ur.addedDocs.map addedToEntry⟩
        newDocs := ur.addedDocs
        exitCode := ur.exitCode
        candidates := allDocs }

/-- The chunk payloads submitted, read off the event trace. -/
def submits (trace : List UploadEvent) : List (List Document) :=
  trace.filterMap (fun e => match e with
    | UploadEvent.submit c => some c
    | _ => none)

/-- A chunk response that the loop accepts: a parsed array whose length
matches the submitted chunk. -/
def okMatching (r : ChunkResp) (requestDocs : List Document) : Prop :=
  match r with
  | ChunkResp.httpError _ => False
  | ChunkResp.ok items => items.length = requestDocs.length

/-- A chunk response the loop aborts on: transport failure or mismatch. -/
def failsOn (r : ChunkResp) (requestDocs : List Document) : Prop :=
  match r with
  | ChunkResp.httpError _ => True
  | ChunkResp.ok items => items.length ≠ requestDocs.length

/-- The items of an accepted response. -/
def okItems (r : ChunkResp) : List RespItem :=
  match r with
  | ChunkResp.httpError _ => []
  | ChunkResp.ok items => items

/-- The exit code the loop writes when it aborts on a response. -/
def failCode (r : ChunkResp) : Option Nat :=
  match r with
  | ChunkResp.httpError _ => some 60
  | ChunkResp.ok _ => some 61

/-! ## Helper lemmas -/

theorem mem_setAdd (s : List String) (v u : String) :
    u ∈ setAdd s v ↔ u ∈ s ∨ u = v := by
  unfold setAdd
  by_cases hv : v ∈ s
  · simp only [if_pos hv]
    constructor
    · exact Or.inl
    · rintro (h | h)
      · exact h
      · exact h ▸ hv
  · simp [if_neg hv]

theorem createDocument_file_url (u : String) : (createDocument u).file_url = u := rfl

theorem mem_getExistingDocsSet (L : Ledger) (u : String) :
    u ∈ getExistingDocsSet L ↔
      (∃ e ∈ L.documents, e.source_url = u) ∨ ∃ e ∈ L.documents, u ∈ e.alternate_urls := by
  unfold getExistingDocsSet
  rw [mem_foldl_setAdd]
  simp [List.mem_flatMap]

theorem processDocsLoop_file_url_ne (docUrls : List String) :
    ∀ (existingDocs : List String) (url : String), url ∈ existingDocs →
      ∀ d ∈ (processDocsLoop docUrls existingDocs).1, d.file_url ≠ url := by
  induction docUrls with
  | nil =>
    intro ex url _ d hd
    simp [processDocsLoop] at hd
  | cons u rest ih =>
    intro ex url hu d hd
    unfold processDocsLoop at hd
    split at hd
    case isTrue h =>
      simp only [List.mem_cons] at hd
      rcases hd with hd | hd
      · subst hd
        rw [createDocument_file_url]
        intro hEq
        exact h.1 (hEq ▸ hu)
      · exact ih (setAdd ex u) url ((mem_setAdd ex u url).2 (Or.inl hu)) d hd
    case isFalse h =>
      exact ih ex url hu d hd

theorem processDocsLoop_nodup (docUrls : List String) :
    ∀ existingDocs : List String,
      ((processDocsLoop docUrls existingDocs).1.map (fun d => d.file_url)).Nodup := by
  induction docUrls with
  | nil => intro ex; simp [processDocsLoop]
  | cons u rest ih =>
    intro ex
    unfold processDocsLoop
    split
    case isTrue h =>
      simp only [List.map_cons, List.nodup_cons, createDocument_file_url]
      refine ⟨?_, ih (setAdd ex u)⟩
      intro hmem
      rcases List.mem_map.1 hmem with ⟨d, hd, hfu⟩
      exact processDocsLoop_file_url_ne rest (setAdd ex u) u
        ((mem_setAdd ex u u).2 (Or.inr rfl)) d hd hfu
    case isFalse h =>
      exact ih ex

theorem processDocsLoop_covers (docUrls : List String) :
    ∀ (existingDocs : List String) (u : String), u ∈ docUrls →
      u ∈ existingDocs ∨ u ∈ DOCS_TO_SKIP ∨
        u ∈ (processDocsLoop docUrls existingDocs).1.map (fun d => d.file_url) := by
  induction docUrls with
  | nil => intro ex u hu; simp at hu
  | cons v rest ih =>
    intro ex u hu
    unfold processDocsLoop
    split
    case isTrue h =>
      rcases List.mem_cons.1 hu with hu | hu
      · subst hu
        right; right
        simp [createDocument_file_url]
      · rcases ih (setAdd ex v) u hu with hc | hc | hc
        · rcases (mem_setAdd ex v u).1 hc with hc | hc
          · exact Or.inl hc
          · subst hc
            right; right
            simp [createDocument_file_url]
        · exact Or.inr (Or.inl hc)
        · right; right
          simp only [List.map_cons, List.mem_cons]
          exact Or.inr hc
    case isFalse h =>
      rcases List.mem_cons.1 hu with hu | hu
      · subst hu
        rcases not_and_or.1 h with h | h
        · exact Or.inl (not_not.1 h)
        · exact Or.inr (Or.inl (not_not.1 h))
      · exact ih ex u hu

theorem processDocsLoop_nil (docUrls : List String) :
    ∀ existingDocs : List String,
      (∀ u ∈ docUrls, u ∈ existingDocs ∨ u ∈ DOCS_TO_SKIP) →
      (processDocsLoop docUrls existingDocs).1 = [] := by
  induction docUrls with
  | nil => intro ex _; simp [processDocsLoop]
  | cons v rest ih =>
    intro ex hall
    unfold processDocsLoop
    split
    case isTrue h =>
      exact absurd (hall v (List.mem_cons_self v rest)) (by
        rintro (hc | hc)
        · exact h.1 hc
        · exact h.2 hc)
    case isFalse h =>
      exact ih ex (fun u hu => hall u (List.mem_cons_of_mem v hu))

theorem chunkDocsGo_nil_fuel (fuel : Nat) : chunkDocsGo fuel [] = [] := by
  cases fuel <;> simp [chunkDocsGo]

theorem chunkDocsGo_step (fuel : Nat) (docs : List Document) (h : docs ≠ []) :
    chunkDocsGo (fuel + 1) docs =
      docs.take DOCS_PER_REQUEST :: chunkDocsGo fuel (docs.drop DOCS_PER_REQUEST) := by
  simp [chunkDocsGo, h]

theorem chunkDocsGo_flatten :
    ∀ (fuel : Nat) (docs : List Document), docs.length ≤ fuel →
      (chunkDocsGo fuel docs).flatten = docs := by
  intro fuel
  induction fuel with
  | zero =>
    intro docs h
    rw [List.eq_nil_of_length_eq_zero (Nat.le_zero.1 h)]
    simp [chunkDocsGo]
  | succ n ih =>
    intro docs h
    by_cases hd : docs = []
    · subst hd; simp [chunkDocsGo]
    · rw [chunkDocsGo_step n docs hd]
      rw [List.flatten_cons]
      rw [ih (docs.drop DOCS_PER_REQUEST) ?_]
      · exact List.take_append_drop DOCS_PER_REQUEST docs
      · have hlen : 0 < docs.length := List.length_pos.2 hd
        rw [List.length_drop]
        simp only [DOCS_PER_REQUEST]
        omega

theorem chunkDocs_flatten (docs : List Document) : (chunkDocs docs).flatten = docs :=
  chunkDocsGo_flatten docs.length docs le_rfl

theorem okMatching_iff (r : ChunkResp) (c : List Document) :
    okMatching r c ↔ ∃ items, r = ChunkResp.ok items ∧ items.length = c.length := by
  cases r <;> simp [okMatching]

theorem zipAdded_map_source (c : List Document) (items : List RespItem)
    (h : items.length = c.length) :
    (zipAdded c items).map (fun a => a.source_url) = c.map (fun d => d.file_url) := by
  unfold zipAdded
  rw [List.map_map]
  rw [show ((fun a : Added => a.source_url) ∘
      (fun p : Document × RespItem => (⟨p.1.file_url, p.2.canonical_url⟩ : Added))) =
      ((fun d : Document => d.file_url) ∘ Prod.fst) from rfl]
  rw [← List.map_map]
  rw [List.map_fst_zip c items (le_of_eq h.symm)]

/-- The result rows accumulated over a chunk list when every response is
accepted, starting at chunk index i. -/
def accRows (resp : Nat → List Document → ChunkResp) :
    List (List Document) → Nat → List Added
  | [], _ => []
  | c :: cs, i => zipAdded c (okItems (resp i c)) ++ accRows resp cs (i + 1)

/-- The event trace the upload loop emits for a chunk list starting at
chunk index i. -/
def chunkEvents : List (List Document) → Nat → List UploadEvent
  | [], _ => []
  | c :: cs, i =>
    (if i ≠ 0 then [UploadEvent.delay 100] else []) ++
      [UploadEvent.submit c] ++ chunkEvents cs (i + 1)

theorem submits_chunkEvents :
    ∀ (chunks : List (List Document)) (i : Nat), submits (chunkEvents chunks i) = chunks := by
  intro chunks
  induction chunks with
  | nil => intro i; simp [chunkEvents, submits]
  | cons c cs ih =>
    intro i
    unfold chunkEvents submits
    rw [List.filterMap_append, List.filterMap_append]
    unfold submits at ih
    rw [ih (i + 1)]
    by_cases hi : i ≠ 0 <;> simp [hi]

theorem submits_append (t1 t2 : List UploadEvent) :
    submits (t1 ++ t2) = submits t1 ++ submits t2 := by
  simp [submits, List.filterMap_append]

theorem ite_delay_append (tr x : List UploadEvent) (i : Nat) :
    (if i ≠ 0 then tr ++ x else tr) = tr ++ (if i ≠ 0 then x else []) := by
  by_cases hi : i ≠ 0 <;> simp [hi]

theorem uploadGo_ok_spec (resp : Nat → List Document → ChunkResp)
    (hresp : ∀ i c, okMatching (resp i c) c) :
    ∀ (chunks : List (List Document)) (i : Nat) (acc : List Added)
      (tr : List UploadEvent) (ec : Option Nat),
      uploadGo resp chunks i acc tr ec =
        ⟨acc ++ accRows resp chunks i, tr ++ chunkEvents chunks i, ec⟩ := by
  intro chunks
  induction chunks with
  | nil => intro i acc tr ec; simp [uploadGo, accRows, chunkEvents]
  | cons c cs ih =>
    intro i acc tr ec
    obtain ⟨items, hr, hl⟩ := (okMatching_iff (resp i c) c).1 (hresp i c)
    unfold uploadGo
    simp only [DRY_RUN, Bool.false_eq_true, if_false]
    rw [hr]
    simp only [hl, ne_eq, not_true_eq_false, if_false]
    rw [ih (i + 1) (acc ++ zipAdded c items) _ ec]
    simp only [accRows, chunkEvents, hr, okItems]
    rw [ite_delay_append]
    simp [List.append_assoc]

theorem accRows_map_source (resp : Nat → List Document → ChunkResp)
    (hresp : ∀ i c, okMatching (resp i c) c) :
    ∀ (chunks : List (List Document)) (i : Nat),
      (accRows resp chunks i).map (fun a => a.source_url) =
        (chunks.flatten).map (fun d => d.file_url) := by
  intro chunks
  induction chunks with
  | nil => intro i; simp [accRows]
  | cons c cs ih =>
    intro i
    obtain ⟨items, hr, hl⟩ := (okMatching_iff (resp i c) c).1 (hresp i c)
    simp only [accRows, List.flatten_cons]
    rw [List.map_append, ih (i + 1), List.map_append, hr]
    simp only [okItems]
    rw [zipAdded_map_source c items hl]

theorem uploadGo_fail_spec (resp : Nat → List Document → ChunkResp) :
    ∀ (chunks : List (List Document)) (k i : Nat) (acc : List Added)
      (tr : List UploadEvent) (ec : Option Nat),
      k < chunks.length →
      (∀ j, j < k → okMatching (resp (i + j) (chunks.getD j [])) (chunks.getD j [])) →
      failsOn (resp (i + k) (chunks.getD k [])) (chunks.getD k []) →
      uploadGo resp chunks i acc tr ec =
        ⟨acc ++ accRows resp (chunks.take k) i,
          tr ++ chunkEvents (chunks.take (k + 1)) i,
          failCode (resp (i + k) (chunks.getD k []))⟩ := by
  intro chunks
  induction chunks with
  | nil =>
    intro k i acc tr ec hk
    simp at hk
  | cons c cs ih =>
    intro k i acc tr ec hk hok hfail
    cases k with
    | zero =>
      simp only [List.getD_cons_zero, Nat.add_zero] at hfail ⊢
      unfold uploadGo
      simp only [DRY_RUN, Bool.false_eq_true, if_false]
      cases hr : resp i c with
      | httpError t =>
        simp only [List.take_zero, List.take_succ_cons, accRows, chunkEvents,
          List.append_nil, failCode, hr]
        rw [ite_delay_append]
        simp [List.append_assoc]
      | ok items =>
        rw [hr] at hfail
        simp only [failsOn] at hfail
        simp only [hfail, ne_eq, if_true, not_false_eq_true]
        simp only [List.take_zero, List.take_succ_cons, accRows, chunkEvents,
          List.append_nil, failCode]
        rw [ite_delay_append]
        simp [List.append_assoc]
    | succ k =>
      have h0 := hok 0 (Nat.succ_pos k)
      simp only [List.getD_cons_zero, Nat.add_zero] at h0
      obtain ⟨items, hr, hl⟩ := (okMatching_iff (resp i c) c).1 h0
      unfold uploadGo
      simp only [DRY_RUN, Bool.false_eq_true, if_false]
      rw [hr]
      simp only [hl, ne_eq, not_true_eq_false, if_false]
      have hok1 : ∀ j, j < k →
          okMatching (resp ((i + 1) + j) (cs.getD j [])) (cs.getD j []) := by
        intro j hj
        have := hok (j + 1) (Nat.succ_lt_succ hj)
        simpa [List.getD_cons_succ, Nat.add_comm, Nat.add_assoc, Nat.add_left_comm] using this
      have hfail1 : failsOn (resp ((i + 1) + k) (cs.getD k [])) (cs.getD k []) := by
        have := hfail
        simpa [List.getD_cons_succ, Nat.add_comm, Nat.add_assoc, Nat.add_left_comm] using this
      rw [ih k (i + 1) (acc ++ zipAdded c items) _ ec (Nat.lt_of_succ_lt_succ hk) hok1 hfail1]
      simp only [List.take_succ_cons, accRows, chunkEvents, List.getD_cons_succ]
      rw [hr]
      simp only [okItems]
      rw [ite_delay_append]
      rw [show i + (k + 1) = (i + 1) + k by omega]
      simp [List.append_assoc]

/-! ## Lemmas about the aggregation step and the driver -/

theorem findSub_zero (pat s : List Char) (h : pat.isPrefixOf s) : findSub pat s = some 0 := by
  cases s with
  | nil =>
    cases pat with
    | nil => simp [findSub]
    | cons p ps => simp [List.isPrefixOf] at h
  | cons c cs => simp [findSub, h]

/-- A URL on the aliased host directory is folded onto the canonical host. -/
theorem normalizeWww_folds (rest : List Char) :
    normalizeWww ⟨"https://www.nyc.gov/assets/ccrb/downloads/pdf/".data ++ rest⟩ =
      ⟨"https://www1.nyc.gov/assets/ccrb/downloads/pdf/".data ++ rest⟩ := by
  unfold normalizeWww jsReplaceFirst
  rw [findSub_zero _ _ (by
    rw [List.isPrefixOf_iff_prefix]
    exact List.prefix_append _ _)]
  simp [List.drop_left]

theorem replaceAllGo_space_free :
    ∀ (fuel : Nat) (s : List Char), s.length ≤ fuel →
      ' ' ∉ replaceAllGo " ".data "%20".data fuel s := by
  intro fuel
  induction fuel with
  | zero =>
    intro s h
    rw [List.eq_nil_of_length_eq_zero (Nat.le_zero.1 h)]
    simp [replaceAllGo]
  | succ n ih =>
    intro s h
    cases s with
    | nil => simp [replaceAllGo]
    | cons c cs =>
      simp only [replaceAllGo]
      by_cases hp : (" ".data).isPrefixOf (c :: cs) ∧ " ".data ≠ []
      · rw [if_pos hp]
        intro hmem
        rcases List.mem_append.1 hmem with hmem | hmem
        · exact absurd hmem (by decide)
        · have hlen : cs.length ≤ n := by
            simp only [List.length_cons] at h
            omega
          exact ih ((c :: cs).drop (" ".data).length) (by simpa using hlen) hmem
      · rw [if_neg hp]
        intro hmem
        rcases List.mem_cons.1 hmem with hmem | hmem
        · apply hp
          refine ⟨?_, by decide⟩
          show ([' '].isPrefixOf (c :: cs))
          simp [List.isPrefixOf, ← hmem]
        · have hlen : cs.length ≤ n := by
            simp only [List.length_cons] at h
            omega
          exact ih cs hlen hmem

/-- Every candidate the aggregation step emits is space-free: the space has
been percent-encoded before any comparison or storage. -/
theorem jsReplaceAllStr_space_free (s : String) :
    ' ' ∉ (jsReplaceAllStr s " " "%20").data :=
  replaceAllGo_space_free s.data.length s.data le_rfl

theorem getApuLinkedDocsGo_ok_elim (content : String → Except String String) :
    ∀ (apuDocs : List String) (acc out : List String),
      getApuLinkedDocsGo content apuDocs acc = Except.ok out →
      ∃ pieces : List (List String),
        out = acc ++ pieces.flatten ∧
        ∀ p ∈ pieces, p.Nodup ∧ ∀ u ∈ p, ∃ raw, u = normalizeWww raw := by
  intro apuDocs
  induction apuDocs with
  | nil =>
    intro acc out h
    simp only [getApuLinkedDocsGo] at h
    exact ⟨[], by simp [← Except.ok.inj h], by simp⟩
  | cons d rest ih =>
    intro acc out h
    cases hc : content d with
    | error m => simp [getApuLinkedDocsGo, hc] at h
    | ok t =>
      cases hm : jsMatch t with
      | none =>
        simp only [getApuLinkedDocsGo, hc, hm] at h
        exact ih acc out h
      | some urls =>
        simp only [getApuLinkedDocsGo, hc, hm] at h
        obtain ⟨pieces, ho, hp⟩ := ih _ out h
        refine ⟨jsSetOfList (urls.map normalizeWww) :: pieces, ?_, ?_⟩
        · rw [ho, List.flatten_cons, List.append_assoc]
        · intro p hmem
          rcases List.mem_cons.1 hmem with hmem | hmem
          · subst hmem
            refine ⟨nodup_jsSetOfList _, ?_⟩
            intro u hu
            rcases List.mem_map.1 ((mem_jsSetOfList _ u).1 hu) with ⟨raw, _, hraw⟩
            exact ⟨raw, hraw.symm⟩
          · exact hp p hmem

theorem getApuLinkedDocsGo_ok_of (content : String → Except String String) :
    ∀ (apuDocs : List String) (acc : List String),
      (∀ d ∈ apuDocs, ∃ t, content d = Except.ok t) →
      ∃ out, getApuLinkedDocsGo content apuDocs acc = Except.ok out := by
  intro apuDocs
  induction apuDocs with
  | nil => intro acc _; exact ⟨acc, rfl⟩
  | cons d rest ih =>
    intro acc hall
    obtain ⟨t, ht⟩ := hall d (List.mem_cons_self d rest)
    simp only [getApuLinkedDocsGo, ht]
    cases hm : jsMatch t with
    | none => exact ih acc (fun x hx => hall x (List.mem_cons_of_mem d hx))
    | some urls => exact ih _ (fun x hx => hall x (List.mem_cons_of_mem d hx))

/-- The URL of a CCRB closing-report filename. -/
def closingUrl (filename : String) : String :=
  "https://www1.nyc.gov/assets/ccrb/downloads/pdf/closing-reports/" ++ filename

theorem aggregatedDocs_ok_elim (w : World) (s : List String) (ec : Option Nat)
    (docs : List String) (ec2 : Option Nat)
    (h : aggregatedDocs w s ec = Except.ok (docs, ec2)) :
    ∃ ps as links ns ds ts cs,
      w.profileRaw = Except.ok ps ∧ w.apuRaw = Except.ok as ∧
      getApuLinkedDocsGo w.apuContent as [] = Except.ok links ∧
      w.annualRaw = Except.ok ns ∧ w.departureRaw = Except.ok ds ∧
      w.trialRaw = Except.ok ts ∧ w.closingFilenamesRaw = Except.ok cs ∧
      docs = (ps ++ as ++ links ++ ns ++ ds ++ ts ++ cs.map closingUrl ++
          EXTRA_DOCS).map (fun url => jsReplaceAllStr url " " "%20") := by
  cases hp : w.profileRaw with
  | error m => simp [aggregatedDocs, getProfileDocs, hp] at h
  | ok ps =>
  cases ha : w.apuRaw with
  | error m => simp [aggregatedDocs, getProfileDocs, getApuDocs, hp, ha] at h
  | ok as =>
  cases hg : getApuLinkedDocsGo w.apuContent as [] with
  | error m =>
    simp [aggregatedDocs, getProfileDocs, getApuDocs, getApuLinkedDocs, hp, ha, hg] at h
  | ok links =>
  cases hn : w.annualRaw with
  | error m =>
    simp [aggregatedDocs, getProfileDocs, getApuDocs, getApuLinkedDocs,
      getCCRBAnnualReports, hp, ha, hg, hn] at h
  | ok ns =>
  cases hd : w.departureRaw with
  | error m =>
    simp [aggregatedDocs, getProfileDocs, getApuDocs, getApuLinkedDocs,
      getCCRBAnnualReports, getDepartureLetters, hp, ha, hg, hn, hd] at h
  | ok ds =>
  cases ht : w.trialRaw with
  | error m =>
    simp [aggregatedDocs, getProfileDocs, getApuDocs, getApuLinkedDocs,
      getCCRBAnnualReports, getDepartureLetters, getTrialDecisions,
      hp, ha, hg, hn, hd, ht] at h
  | ok ts =>
  cases hc : w.closingFilenamesRaw with
  | error m =>
    simp [aggregatedDocs, getProfileDocs, getApuDocs, getApuLinkedDocs,
      getCCRBAnnualReports, getDepartureLetters, getTrialDecisions,
      getCcrbClosingReports, hp, ha, hg, hn, hd, ht, hc] at h
  | ok cs =>
    refine ⟨ps, as, links, ns, ds, ts, cs, rfl, rfl, hg, rfl, rfl, rfl, rfl, ?_⟩
    simp only [aggregatedDocs, getProfileDocs, getApuDocs, getApuLinkedDocs,
      getCCRBAnnualReports, getDepartureLetters, getTrialDecisions,
      getCcrbClosingReports, hp, ha, hg, hn, hd, ht, hc] at h
    have h2 := Except.ok.inj h
    exact (congrArg Prod.fst h2).symm

theorem aggregatedDocs_ok_of (w : World) (s : List String) (ec : Option Nat)
    (ps as links ns ds ts cs : List String)
    (hp : w.profileRaw = Except.ok ps) (ha : w.apuRaw = Except.ok as)
    (hg : getApuLinkedDocsGo w.apuContent as [] = Except.ok links)
    (hn : w.annualRaw = Except.ok ns) (hd : w.departureRaw = Except.ok ds)
    (ht : w.trialRaw = Except.ok ts) (hc : w.closingFilenamesRaw = Except.ok cs) :
    ∃ ec2, aggregatedDocs w s ec =
      Except.ok ((ps ++ as ++ links ++ ns ++ ds ++ ts ++ cs.map closingUrl ++
        EXTRA_DOCS).map (fun url => jsReplaceAllStr url " " "%20"), ec2) := by
  refine ⟨checkDocCount "CCRB closing report" 3150 (cs.map closingUrl)
      (checkDocCount "trial decision" 1650 ts
        (checkDocCount "departure letter" 225 ds
          (checkDocCount "CCRB annual reports" 50 ns
            (checkDocCount "APU linked" 0 links
              (checkDocCount "APU" 25 as
                (checkDocCount "profile" 800 ps ec)))))), ?_⟩
  simp only [aggregatedDocs, getProfileDocs, getApuDocs, getApuLinkedDocs,
    getCCRBAnnualReports, getDepartureLetters, getTrialDecisions,
    getCcrbClosingReports, hp, ha, hg, hn, hd, ht, hc, closingUrl]
  rfl

/-- The aggregation result does not depend on the known-URL set handed to
getApuLinkedDocs: the source accepts and ignores that parameter. -/
theorem aggregatedDocs_indep (w : World) (s t : List String) (ec : Option Nat) :
    aggregatedDocs w s ec = aggregatedDocs w t ec := rfl

theorem start_ok_elim (w : World) (l : Ledger) (r : RunResult)
    (h : start w l = Except.ok r) :
    ∃ docs ec2,
      aggregatedDocs w (getExistingDocsSet l)
          (validatorPhase w.validatorOutcomes none).2 = Except.ok (docs, ec2) ∧
      r.candidates = docs ∧
      r.newDocs = (processDocs w.uploadResp docs (getExistingDocsSet l) ec2).addedDocs ∧
      r.exitCode = (processDocs w.uploadResp docs (getExistingDocsSet l) ec2).exitCode ∧
      r.ledger = ⟨l.documents ++ r.newDocs.map addedToEntry⟩ := by
  cases hagg : aggregatedDocs w (getExistingDocsSet l)
      (validatorPhase w.validatorOutcomes none).2 with
  | error m => simp [start, hagg] at h
  | ok p =>
    obtain ⟨docs, ec2⟩ := p
    simp only [start, hagg] at h
    refine ⟨docs, ec2, rfl, ?_⟩
    rw [← Except.ok.inj h]
    exact ⟨rfl, rfl, rfl, rfl⟩

theorem start_error_of_profile (w : World) (l : Ledger) (m : String)
    (h : w.profileRaw = Except.error m) : start w l = Except.error m := by
  have hagg : aggregatedDocs w (getExistingDocsSet l)
      (validatorPhase w.validatorOutcomes none).2 = Except.error m := by
    simp [aggregatedDocs, getProfileDocs, h]
  simp [start, hagg]

/-! ## Claim C1 -/

/-- C1: for every candidate URL list and every ledger, a candidate URL that
equals the source_url of some ledger record, or lies in some record's
alternate_urls, is excluded from the newDocuments list processDocs passes to
the uploader: the KnownURLs membership test built from the ledger filters it
out. -/
theorem c1_known_url_excluded (docUrls : List String) (ledger : Ledger) (url : String)
    (h : (∃ e ∈ ledger.documents, e.source_url = url) ∨
      ∃ e ∈ ledger.documents, url ∈ e.alternate_urls) :
    ∀ d ∈ newDocumentsOf docUrls (getExistingDocsSet ledger), d.file_url ≠ url := by
  have hmem : url ∈ getExistingDocsSet ledger := (mem_getExistingDocsSet ledger url).2 h
  exact fun d hd =>
    processDocsLoop_file_url_ne docUrls (getExistingDocsSet ledger) url hmem d hd

theorem c1_witness :
    ((∃ e ∈ (Ledger.mk [⟨"https://a.test/x.pdf", "p", ["https://b.test/y.pdf"]⟩]).documents,
        e.source_url = "https://b.test/y.pdf") ∨
      ∃ e ∈ (Ledger.mk [⟨"https://a.test/x.pdf", "p", ["https://b.test/y.pdf"]⟩]).documents,
        "https://b.test/y.pdf" ∈ e.alternate_urls) ∧
    ∀ d ∈ newDocumentsOf ["https://b.test/y.pdf", "https://c.test/z.pdf"]
        (getExistingDocsSet (Ledger.mk [⟨"https://a.test/x.pdf", "p", ["https://b.test/y.pdf"]⟩])),
      d.file_url ≠ "https://b.test/y.pdf" :=
  ⟨by decide, c1_known_url_excluded _ _ _ (by decide)⟩

/-! ## Claim C10 -/

theorem filter_file_url_via_map (l : List Document) (url : String) :
    (l.filter (fun d => d.file_url == url)).length =
      ((l.map (fun d => d.file_url)).filter (fun v => v == url)).length := by
  induction l with
  | nil => simp
  | cons d ds ih =>
    by_cases h : d.file_url = url <;> simp [List.filter_cons, h, ih]

theorem nodup_filter_beq_le_one (l : List String) (h : l.Nodup) (url : String) :
    (l.filter (fun v => v == url)).length ≤ 1 := by
  induction l with
  | nil => simp
  | cons v vs ih =>
    rcases List.nodup_cons.1 h with ⟨hv, hnd⟩
    by_cases he : v = url
    · subst he
      have hnil : vs.filter (fun x => x == v) = [] := by
        rw [List.filter_eq_nil_iff]
        intro a ha hav
        exact hv ((eq_of_beq hav) ▸ ha)
      simp [List.filter_cons, hnil]
    · simp only [List.filter_cons, beq_iff_eq, he, if_false]
      exact ih hnd

/-- C10: within a single run, a canonical URL occurring several times in the
aggregated candidate list yields at most one entry in newDocuments, because
processDocs adds each accepted URL to the known-URL set before examining
later candidates. -/
theorem c10_within_run_unique (docUrls existingDocs : List String) (url : String) :
    ((newDocumentsOf docUrls existingDocs).filter (fun d => d.file_url == url)).length ≤ 1 := by
  rw [filter_file_url_via_map]
  exact nodup_filter_beq_le_one _ (processDocsLoop_nodup docUrls existingDocs) url

/-! ## Claim C2 -/

theorem chunkDocs_57 (docs : List Document) (h57 : docs.length = 57) :
    chunkDocs docs = [docs.take 25, (docs.drop 25).take 25, (docs.drop 25).drop 25] := by
  have h1 : docs ≠ [] := by intro h; rw [h] at h57; simp at h57
  have hl1 : (docs.drop 25).length = 32 := by rw [List.length_drop, h57]
  have h2 : docs.drop 25 ≠ [] := by intro h; rw [h] at hl1; simp at hl1
  have hl2 : ((docs.drop 25).drop 25).length = 7 := by rw [List.length_drop, hl1]
  have h3 : (docs.drop 25).drop 25 ≠ [] := by intro h; rw [h] at hl2; simp at hl2
  have hl3 : ((docs.drop 25).drop 25).drop 25 = [] := by
    apply List.eq_nil_of_length_eq_zero
    rw [List.length_drop, hl2]
  unfold chunkDocs
  rw [h57]
  rw [show (57 : Nat) = 56 + 1 from rfl, chunkDocsGo_step 56 docs h1]
  simp only [DOCS_PER_REQUEST]
  rw [show (56 : Nat) = 55 + 1 from rfl, chunkDocsGo_step 55 _ h2]
  simp only [DOCS_PER_REQUEST]
  rw [show (55 : Nat) = 54 + 1 from rfl, chunkDocsGo_step 54 _ h3]
  simp only [DOCS_PER_REQUEST]
  rw [hl3, chunkDocsGo_nil_fuel]
  rw [@List.take_of_length_le _ 25 (List.drop 25 (List.drop 25 docs)) (by rw [hl2]; omega)]

/-- C2: for an input of exactly 57 new documents whose submissions are all
accepted, the uploader issues exactly the 3 chunks of sizes 25, 25 and 7 in
order, and the event trace shows the fixed 100ms suspension (meeting the
at-least-100ms budget) immediately before chunks 2 and 3 and no suspension
before chunk 1. -/
theorem c2_chunking (docs : List Document) (resp : Nat → List Document → ChunkResp)
    (ec : Option Nat) (h57 : docs.length = 57)
    (hok : ∀ i c, okMatching (resp i c) c) :
    chunkDocs docs = [docs.take 25, (docs.drop 25).take 25, (docs.drop 25).drop 25] ∧
    (docs.take 25).length = 25 ∧ ((docs.drop 25).take 25).length = 25 ∧
    ((docs.drop 25).drop 25).length = 7 ∧
    (uploadDocs resp docs ec).trace =
      [UploadEvent.submit (docs.take 25), UploadEvent.delay 100,
        UploadEvent.submit ((docs.drop 25).take 25), UploadEvent.delay 100,
        UploadEvent.submit ((docs.drop 25).drop 25)] := by
  have hch := chunkDocs_57 docs h57
  refine ⟨hch, ?_, ?_, ?_, ?_⟩
  · rw [List.length_take, h57]; decide
  · rw [List.length_take, List.length_drop, h57]; decide
  · rw [List.length_drop, List.length_drop, h57]
  · unfold uploadDocs
    rw [hch, uploadGo_ok_spec resp hok]
    simp [chunkEvents]

def c2docs : List Document := List.replicate 57 (createDocument "https://e.test/d.pdf")

def c2resp : Nat → List Document → ChunkResp :=
  fun _ c => ChunkResp.ok (c.map (fun _ => ⟨"https://store.test/d"⟩))

theorem c2_witness :
    c2docs.length = 57 ∧
    (chunkDocs c2docs = [c2docs.take 25, (c2docs.drop 25).take 25, (c2docs.drop 25).drop 25] ∧
      (c2docs.take 25).length = 25 ∧ ((c2docs.drop 25).take 25).length = 25 ∧
      ((c2docs.drop 25).drop 25).length = 7 ∧
      (uploadDocs c2resp c2docs none).trace =
        [UploadEvent.submit (c2docs.take 25), UploadEvent.delay 100,
          UploadEvent.submit ((c2docs.drop 25).take 25), UploadEvent.delay 100,
          UploadEvent.submit ((c2docs.drop 25).drop 25)]) :=
  ⟨by simp [c2docs], c2_chunking c2docs c2resp none (by simp [c2docs])
    (fun i c => by simp [c2resp, okMatching])⟩

/-! ## Claim C3 -/

/-- C3: if the response to chunk k (0-based) is a transport failure or has a
mismatched item count, while every earlier chunk was accepted, the uploader
returns exactly the rows accumulated for chunks 0..k-1, the trace shows each
of chunks 0..k submitted exactly once and nothing after chunk k (no retry,
no further chunks, no rollback), and the exit code records the abort. -/
theorem c3_fail_fast (docs : List Document) (resp : Nat → List Document → ChunkResp)
    (ec : Option Nat) (k : Nat) (hk : k < (chunkDocs docs).length)
    (hok : ∀ j, j < k →
      okMatching (resp j ((chunkDocs docs).getD j [])) ((chunkDocs docs).getD j []))
    (hfail : failsOn (resp k ((chunkDocs docs).getD k [])) ((chunkDocs docs).getD k [])) :
    (uploadDocs resp docs ec).addedDocs = accRows resp ((chunkDocs docs).take k) 0 ∧
    submits (uploadDocs resp docs ec).trace = (chunkDocs docs).take (k + 1) ∧
    (uploadDocs resp docs ec).exitCode = failCode (resp k ((chunkDocs docs).getD k [])) := by
  have hok0 : ∀ j, j < k →
      okMatching (resp (0 + j) ((chunkDocs docs).getD j [])) ((chunkDocs docs).getD j []) := by
    intro j hj
    simpa using hok j hj
  have hfail0 : failsOn (resp (0 + k) ((chunkDocs docs).getD k []))
      ((chunkDocs docs).getD k []) := by
    simpa using hfail
  have hspec := uploadGo_fail_spec resp (chunkDocs docs) k 0 [] [] ec hk hok0 hfail0
  unfold uploadDocs
  rw [hspec]
  refine ⟨by simp, ?_, by simp⟩
  simp [submits_chunkEvents]

def c3docs : List Document := List.replicate 30 (createDocument "https://e.test/d.pdf")

def c3resp : Nat → List Document → ChunkResp :=
  fun i c => if i = 0 then ChunkResp.ok (c.map (fun _ => ⟨"https://store.test/d"⟩))
    else ChunkResp.httpError "boom"

theorem c3_witness :
    (1 < (chunkDocs c3docs).length ∧
      (∀ j, j < 1 →
        okMatching (c3resp j ((chunkDocs c3docs).getD j [])) ((chunkDocs c3docs).getD j [])) ∧
      failsOn (c3resp 1 ((chunkDocs c3docs).getD 1 [])) ((chunkDocs c3docs).getD 1 [])) ∧
    ((uploadDocs c3resp c3docs none).addedDocs = accRows c3resp ((chunkDocs c3docs).take 1) 0 ∧
      submits (uploadDocs c3resp c3docs none).trace = (chunkDocs c3docs).take 2 ∧
      (uploadDocs c3resp c3docs none).exitCode =
        failCode (c3resp 1 ((chunkDocs c3docs).getD 1 []))) :=
  ⟨⟨by decide,
    by
      intro j hj
      have hj0 : j = 0 := by omega
      subst hj0
      simp [c3resp, okMatching],
    by simp [c3resp, failsOn]⟩,
    c3_fail_fast c3docs c3resp none 1 (by decide)
      (by
        intro j hj
        have hj0 : j = 0 := by omega
        subst hj0
        simp [c3resp, okMatching])
      (by simp [c3resp, failsOn])⟩

/-! ## Claim C6 -/

def c6content : String → Except String String :=
  fun d =>
    if d = "https://e.test/good.pdf" then Except.ok "see http://x.pdf today"
    else if d = "https://e.test/plain.pdf" then Except.ok "no links at all"
    else Except.error "decode failure"

/-- C6 counterexample: a decode failure on one input document is fatal to the
whole extraction pass - the source has no try/catch around the decoder, so
the rejection propagates and the remaining documents are never scanned -
although the same later document alone yields its links. -/
theorem c6_counterexample :
    getApuLinkedDocs c6content ["https://e.test/bad.pdf", "https://e.test/good.pdf"] [] none =
      Except.error "decode failure" ∧
    getApuLinkedDocs c6content ["https://e.test/good.pdf"] [] none =
      Except.ok (["http://x.pdf"], none) :=
  ⟨rfl, rfl⟩

/-- C6 amended: what is non-fatal is a document whose decoded text contains
no matching URL (the null-match branch): it is skipped with zero links and
extraction continues with the rest.  A failure to decode the binary content
itself propagates out of the extraction pass and aborts it. -/
theorem c6_decode_behavior :
    (∀ (content : String → Except String String) (apuDocs existingDocs : List String)
        (ec : Option Nat) (d t : String),
      content d = Except.ok t → jsMatch t = none →
      getApuLinkedDocs content (d :: apuDocs) existingDocs ec =
        getApuLinkedDocs content apuDocs existingDocs ec) ∧
    (∀ (content : String → Except String String) (apuDocs existingDocs : List String)
        (ec : Option Nat) (d m : String),
      content d = Except.error m →
      getApuLinkedDocs content (d :: apuDocs) existingDocs ec = Except.error m) := by
  constructor
  · intro content apuDocs existingDocs ec d t hc hm
    unfold getApuLinkedDocs
    simp only [getApuLinkedDocsGo, hc, hm]
  · intro content apuDocs existingDocs ec d m hc
    unfold getApuLinkedDocs
    simp only [getApuLinkedDocsGo, hc]

theorem c6_witness :
    (c6content "https://e.test/plain.pdf" = Except.ok "no links at all" ∧
      jsMatch "no links at all" = none ∧
      getApuLinkedDocs c6content
          ["https://e.test/plain.pdf", "https://e.test/good.pdf"] [] none =
        getApuLinkedDocs c6content ["https://e.test/good.pdf"] [] none) ∧
    (c6content "https://e.test/other.pdf" = Except.error "decode failure" ∧
      getApuLinkedDocs c6content ["https://e.test/other.pdf"] [] none =
        Except.error "decode failure") :=
  ⟨⟨rfl, by decide, c6_decode_behavior.1 c6content _ [] none _ _ rfl (by decide)⟩,
    ⟨rfl, c6_decode_behavior.2 c6content [] [] none _ _ rfl⟩⟩

/-! ## Claim C8 -/

def c8content : String → Except String String :=
  fun _ => Except.ok "see http://dup.test/a.pdf here"

/-- C8 counterexample: the per-document Sets are pushed into one shared
array, so the list one extraction call returns over several input documents
can contain duplicates - dedup does not span the call. -/
theorem c8_counterexample :
    getApuLinkedDocs c8content ["https://e.test/r1.pdf", "https://e.test/r2.pdf"] [] none =
      Except.ok (["http://dup.test/a.pdf", "http://dup.test/a.pdf"], none) ∧
    ¬ (["http://dup.test/a.pdf", "http://dup.test/a.pdf"] : List String).Nodup :=
  ⟨rfl, by decide⟩

/-- The contribution of one input document to the extractor output, read off
the loop body of getApuLinkedDocs: the decoded text's matches, host-folded
and collapsed into a Set; an empty piece when the match is null; the decode
rejection when the decoder rejects. -/
def perDocLinks (content : String → Except String String) (apuDoc : String) :
    Except String (List String) :=
  match content apuDoc with
  | Except.error e => Except.error e
  | Except.ok out =>
    match jsMatch out with
    | none => Except.ok []
    | some urls => Except.ok (jsSetOfList (urls.map normalizeWww))

/-- The per-document pieces of one extraction call, in input order. -/
def perDocPieces (content : String → Except String String) :
    List String → Except String (List (List String))
  | [] => Except.ok []
  | d :: rest =>
    match perDocLinks content d with
    | Except.error e => Except.error e
    | Except.ok p =>
      match perDocPieces content rest with
      | Except.error e => Except.error e
      | Except.ok ps => Except.ok (p :: ps)

theorem perDocLinks_nodup (content : String → Except String String) (d : String)
    (p : List String) (h : perDocLinks content d = Except.ok p) : p.Nodup := by
  cases hc : content d with
  | error m => simp [perDocLinks, hc] at h
  | ok t =>
    cases hm : jsMatch t with
    | none =>
      simp only [perDocLinks, hc, hm] at h
      rw [← Except.ok.inj h]
      exact List.nodup_nil
    | some urls =>
      simp only [perDocLinks, hc, hm] at h
      rw [← Except.ok.inj h]
      exact nodup_jsSetOfList _

theorem perDocPieces_nodup (content : String → Except String String) :
    ∀ (apuDocs : List String) (pieces : List (List String)),
      perDocPieces content apuDocs = Except.ok pieces → ∀ p ∈ pieces, p.Nodup := by
  intro apuDocs
  induction apuDocs with
  | nil =>
    intro pieces h
    rw [← Except.ok.inj h]
    simp
  | cons d rest ih =>
    intro pieces h
    cases hd : perDocLinks content d with
    | error m => simp [perDocPieces, hd] at h
    | ok p0 =>
      cases hr : perDocPieces content rest with
      | error m => simp [perDocPieces, hd, hr] at h
      | ok ps =>
        simp only [perDocPieces, hd, hr] at h
        rw [← Except.ok.inj h]
        intro p hp
        rcases List.mem_cons.1 hp with hp | hp
        · exact hp ▸ perDocLinks_nodup content d p0 hd
        · exact ih ps hr p hp

theorem getApuLinkedDocsGo_eq_pieces (content : String → Except String String) :
    ∀ (apuDocs : List String) (acc out : List String),
      getApuLinkedDocsGo content apuDocs acc = Except.ok out →
      ∃ pieces : List (List String),
        perDocPieces content apuDocs = Except.ok pieces ∧ out = acc ++ pieces.flatten := by
  intro apuDocs
  induction apuDocs with
  | nil =>
    intro acc out h
    simp only [getApuLinkedDocsGo] at h
    exact ⟨[], rfl, by simp [← Except.ok.inj h]⟩
  | cons d rest ih =>
    intro acc out h
    cases hc : content d with
    | error m => simp [getApuLinkedDocsGo, hc] at h
    | ok t =>
      cases hm : jsMatch t with
      | none =>
        simp only [getApuLinkedDocsGo, hc, hm] at h
        obtain ⟨ps, hps, ho⟩ := ih acc out h
        refine ⟨[] :: ps, ?_, ?_⟩
        · simp only [perDocPieces, perDocLinks, hc, hm, hps]
        · simpa using ho
      | some urls =>
        simp only [getApuLinkedDocsGo, hc, hm] at h
        obtain ⟨ps, hps, ho⟩ := ih (acc ++ jsSetOfList (urls.map normalizeWww)) out h
        refine ⟨jsSetOfList (urls.map normalizeWww) :: ps, ?_, ?_⟩
        · simp only [perDocPieces, perDocLinks, hc, hm, hps]
        · rw [ho, List.flatten_cons, List.append_assoc]

/-- C8 amended: deduplication happens per input document.  The list the
extraction call returns is exactly the concatenation, in input order, of the
per-document pieces computed by the loop body - each piece the Set of that
one document's host-folded matches, hence duplicate-free - so duplicates can
remain only across different input documents, never inside one document's
piece. -/
theorem c8_per_doc_dedup (content : String → Except String String)
    (apuDocs existingDocs : List String) (ec : Option Nat)
    (out : List String) (ec2 : Option Nat)
    (h : getApuLinkedDocs content apuDocs existingDocs ec = Except.ok (out, ec2)) :
    ∃ pieces : List (List String),
      perDocPieces content apuDocs = Except.ok pieces ∧
      out = pieces.flatten ∧
      ∀ p ∈ pieces, p.Nodup := by
  unfold getApuLinkedDocs at h
  cases hg : getApuLinkedDocsGo content apuDocs [] with
  | error m => rw [hg] at h; simp at h
  | ok docs =>
    rw [hg] at h
    have hdocs : docs = out := congrArg Prod.fst (Except.ok.inj h)
    obtain ⟨pieces, hps, ho⟩ := getApuLinkedDocsGo_eq_pieces content apuDocs [] docs hg
    subst hdocs
    rw [List.nil_append] at ho
    exact ⟨pieces, hps, ho, perDocPieces_nodup content apuDocs pieces hps⟩

theorem c8_witness :
    getApuLinkedDocs c8content ["https://e.test/r1.pdf", "https://e.test/r2.pdf"] [] none =
      Except.ok (["http://dup.test/a.pdf", "http://dup.test/a.pdf"], none) ∧
    ∃ pieces : List (List String),
      perDocPieces c8content ["https://e.test/r1.pdf", "https://e.test/r2.pdf"] =
        Except.ok pieces ∧
      ["http://dup.test/a.pdf", "http://dup.test/a.pdf"] = pieces.flatten ∧
      ∀ p ∈ pieces, p.Nodup :=
  ⟨rfl, c8_per_doc_dedup c8content ["https://e.test/r1.pdf", "https://e.test/r2.pdf"] [] none
    ["http://dup.test/a.pdf", "http://dup.test/a.pdf"] none rfl⟩

/-! ## Claim C5 -/

def wC5 : World :=
  { validatorOutcomes := [FetchOutcome.page [] false]
    profileRaw := Except.error "network failure"
    departureRaw := Except.ok ["https://letters.test/l1.pdf"]
    trialRaw := Except.ok []
    closingFilenamesRaw := Except.ok []
    apuRaw := Except.ok []
    annualRaw := Except.ok []
    apuContent := fun _ => Except.error "unused"
    uploadResp := fun _ c => ChunkResp.ok (c.map (fun _ => ⟨"https://store.test/d"⟩)) }

def wC5ok : World := { wC5 with profileRaw := Except.ok [] }

/-- C5 counterexample: a FetchError in one Source Adapter is not recovered
locally - with no try/catch in the source it rejects the whole run, so the
departure-letter adapter's document, ingested when every adapter resolves,
is not ingested when the profile adapter rejects. -/
theorem c5_counterexample :
    start wC5 (Ledger.mk []) = Except.error "network failure" ∧
    ∃ r, start wC5ok (Ledger.mk []) = Except.ok r ∧
      "https://letters.test/l1.pdf" ∈ r.newDocs.map (fun a => a.source_url) :=
  ⟨rfl, ⟨_, rfl, by decide⟩⟩

/-- C5 amended: a Source Adapter fetch failure propagates and aborts the
entire run - no other adapter's results are ingested.  What is recovered
locally is a degraded result count: when every adapter resolves, the run
completes whatever the counts are, the low-water marks only setting the
warning exit code. -/
theorem c5_adapter_failure_semantics :
    (∀ (w : World) (ledger : Ledger) (m : String),
      w.profileRaw = Except.error m → start w ledger = Except.error m) ∧
    (∀ (w : World) (ledger : Ledger) (ps as links ns ds ts cs : List String),
      w.profileRaw = Except.ok ps → w.apuRaw = Except.ok as →
      getApuLinkedDocsGo w.apuContent as [] = Except.ok links →
      w.annualRaw = Except.ok ns → w.departureRaw = Except.ok ds →
      w.trialRaw = Except.ok ts → w.closingFilenamesRaw = Except.ok cs →
      ∃ r, start w ledger = Except.ok r) := by
  constructor
  · exact fun w ledger m h => start_error_of_profile w ledger m h
  · intro w ledger ps as links ns ds ts cs hp ha hg hn hd ht hc
    obtain ⟨ec2, hagg⟩ := aggregatedDocs_ok_of w (getExistingDocsSet ledger)
      (validatorPhase w.validatorOutcomes none).2 ps as links ns ds ts cs hp ha hg hn hd ht hc
    cases hs : start w ledger with
    | ok r => exact ⟨r, rfl⟩
    | error m =>
      simp only [start, hagg] at hs
      exact Except.noConfusion hs

theorem c5_witness :
    (wC5.profileRaw = Except.error "network failure" ∧
      start wC5 (Ledger.mk []) = Except.error "network failure") ∧
    (wC5ok.profileRaw = Except.ok [] ∧ wC5ok.apuRaw = Except.ok [] ∧
      getApuLinkedDocsGo wC5ok.apuContent [] [] = Except.ok [] ∧
      wC5ok.annualRaw = Except.ok [] ∧
      wC5ok.departureRaw = Except.ok ["https://letters.test/l1.pdf"] ∧
      wC5ok.trialRaw = Except.ok [] ∧ wC5ok.closingFilenamesRaw = Except.ok [] ∧
      ∃ r, start wC5ok (Ledger.mk []) = Except.ok r) :=
  ⟨⟨rfl, c5_adapter_failure_semantics.1 wC5 (Ledger.mk []) "network failure" rfl⟩,
    ⟨rfl, rfl, rfl, rfl, rfl, rfl, rfl,
      c5_adapter_failure_semantics.2 wC5ok (Ledger.mk [])
        [] [] [] [] ["https://letters.test/l1.pdf"] [] [] rfl rfl rfl rfl rfl rfl rfl⟩⟩

/-! ## Claim C7 -/

def aliasedUrl : String :=
  "https://www.nyc.gov/assets/ccrb/downloads/pdf/closing-reports/x.pdf"

def wC7 : World :=
  { validatorOutcomes := [FetchOutcome.page [] false]
    profileRaw := Except.ok []
    departureRaw := Except.ok [aliasedUrl]
    trialRaw := Except.ok []
    closingFilenamesRaw := Except.ok []
    apuRaw := Except.ok []
    annualRaw := Except.ok []
    apuContent := fun _ => Except.error "unused"
    uploadResp := fun _ c => ChunkResp.ok (c.map (fun _ => ⟨"https://store.test/d"⟩)) }

def ledgerC7 : Ledger :=
  ⟨⟨"https://www1.nyc.gov/assets/ccrb/downloads/pdf/closing-reports/x.pdf", "p", []⟩ ::
    EXTRA_DOCS.map (fun u => ⟨u, "p", []⟩)⟩

/-- C7 counterexample: host folding is applied only to Link Extractor
output.  A departure-letter candidate carrying the aliased host reaches the
membership comparison unfolded and is ingested even though the ledger
already holds the canonical-host form of the same document. -/
theorem c7_counterexample :
    ∃ r, start wC7 ledgerC7 = Except.ok r ∧
      r.newDocs.map (fun a => a.source_url) = [aliasedUrl] ∧
      "https://www1.nyc.gov/assets/ccrb/downloads/pdf/closing-reports/x.pdf" ∈
        getExistingDocsSet ledgerC7 :=
  ⟨_, rfl, by decide, by decide⟩

def c7content : String → Except String String :=
  fun _ => Except.ok "see http://x.pdf today"

/-- C7 amended: every aggregated candidate is compared and stored with each
space percent-encoded (the example URL included), and host folding onto the
canonical www1 host is applied to the Link Extractor's output - every URL it
returns is the folded image of a raw match, and a raw match on the aliased
host directory is rewritten onto the canonical host - but candidates from
the other adapters are not folded. -/
theorem c7_canonicalization :
    jsReplaceAllStr "https://x.test/A B.pdf" " " "%20" = "https://x.test/A%20B.pdf" ∧
    (∀ (w : World) (s : List String) (ec : Option Nat) (docs : List String) (ec2 : Option Nat),
      aggregatedDocs w s ec = Except.ok (docs, ec2) → ∀ u ∈ docs, ' ' ∉ u.data) ∧
    (∀ rest : List Char,
      normalizeWww ⟨"https://www.nyc.gov/assets/ccrb/downloads/pdf/".data ++ rest⟩ =
        ⟨"https://www1.nyc.gov/assets/ccrb/downloads/pdf/".data ++ rest⟩) ∧
    (∀ (content : String → Except String String) (apuDocs existingDocs : List String)
        (ec : Option Nat) (out : List String) (ec2 : Option Nat),
      getApuLinkedDocs content apuDocs existingDocs ec = Except.ok (out, ec2) →
      ∀ u ∈ out, ∃ raw, u = normalizeWww raw) := by
  refine ⟨by decide, ?_, normalizeWww_folds, ?_⟩
  · intro w s ec docs ec2 h u hu
    obtain ⟨ps, as, links, ns, ds, ts, cs, _, _, _, _, _, _, _, hdocs⟩ :=
      aggregatedDocs_ok_elim w s ec docs ec2 h
    subst hdocs
    rcases List.mem_map.1 hu with ⟨raw, _, hraw⟩
    rw [← hraw]
    exact jsReplaceAllStr_space_free raw
  · intro content apuDocs existingDocs ec out ec2 h u hu
    unfold getApuLinkedDocs at h
    cases hg : getApuLinkedDocsGo content apuDocs [] with
    | error m => rw [hg] at h; simp at h
    | ok docs =>
      rw [hg] at h
      have hdocs : docs = out := congrArg Prod.fst (Except.ok.inj h)
      obtain ⟨pieces, ho, hp⟩ := getApuLinkedDocsGo_ok_elim content apuDocs [] docs hg
      subst hdocs
      rw [List.nil_append] at ho
      subst ho
      rcases List.mem_flatten.1 hu with ⟨p, hpmem, hup⟩
      exact (hp p hpmem).2 u hup

theorem c7_witness :
    (aggregatedDocs wC7 [] none =
      Except.ok ((aliasedUrl :: EXTRA_DOCS).map (fun url => jsReplaceAllStr url " " "%20"),
        some 59) ∧
      ∀ u ∈ (aliasedUrl :: EXTRA_DOCS).map (fun url => jsReplaceAllStr url " " "%20"),
        ' ' ∉ u.data) ∧
    (getApuLinkedDocs c7content ["https://e.test/r.pdf"] [] none =
      Except.ok (["http://x.pdf"], none) ∧
      ∀ u ∈ ["http://x.pdf"], ∃ raw, u = normalizeWww raw) :=
  ⟨⟨rfl, c7_canonicalization.2.1 wC7 [] none _ (some 59) rfl⟩,
    ⟨rfl, c7_canonicalization.2.2.2 c7content ["https://e.test/r.pdf"] [] none
      ["http://x.pdf"] none rfl⟩⟩

/-! ## Claim C9 -/

/-- C9 counterexample: a validator transport failure does set 62 inside
checkDocuments, but its -1 sentinel is nonzero, so the driver immediately
overwrites the cell with 58 - the very code validator-detected processing
failures produce.  The two failure classes are indistinguishable from the
exit status. -/
theorem c9_counterexample :
    checkDocuments [FetchOutcome.fail "http 500"] none = (-1, some 62) ∧
    validatorPhase [FetchOutcome.fail "http 500"] none = (-1, some 58) ∧
    validatorPhase [FetchOutcome.page ["error"] false] none = (1, some 58) := by
  refine ⟨rfl, ?_, ?_⟩ <;> decide

/-- C9 amended: each failure class writes its own nonzero code - 59 for a
degraded source count, 60 for an upload transport abort, 61 for an upload
count mismatch, 58 for validator-detected processing failures - with later
writes overwriting earlier ones; a validator transport failure is the
exception: its 62 is immediately overwritten by 58, so it is not
distinguishable from processing failures at the end of the run.  The ledger
is still updated (new rows appended) on every run that completes, whatever
warning code is set. -/
theorem c9_exit_codes :
    (∀ (m : String) (rest : List FetchOutcome) (ec : Option Nat),
      validatorPhase (FetchOutcome.fail m :: rest) ec = (-1, some 58)) ∧
    (∀ (statuses : List String) (ec : Option Nat),
      (statuses.filter (fun s => s != "success")).length ≠ 0 →
      (validatorPhase [FetchOutcome.page statuses false] ec).2 = some 58) ∧
    (∀ (t : String) (e : Nat) (docs : List String) (ec : Option Nat),
      docs.length < e → checkDocCount t e docs ec = some 59) ∧
    (∀ (resp : Nat → List Document → ChunkResp) (chunk : List Document)
        (rest : List (List Document)) (i : Nat) (acc : List Added)
        (tr : List UploadEvent) (ec : Option Nat) (m : String),
      resp i chunk = ChunkResp.httpError m →
      (uploadGo resp (chunk :: rest) i acc tr ec).exitCode = some 60) ∧
    (∀ (resp : Nat → List Document → ChunkResp) (chunk : List Document)
        (rest : List (List Document)) (i : Nat) (acc : List Added)
        (tr : List UploadEvent) (ec : Option Nat) (items : List RespItem),
      resp i chunk = ChunkResp.ok items → items.length ≠ chunk.length →
      (uploadGo resp (chunk :: rest) i acc tr ec).exitCode = some 61) ∧
    (∀ (w : World) (l : Ledger) (r : RunResult), start w l = Except.ok r →
      r.ledger.documents = l.documents ++ r.newDocs.map addedToEntry) := by
  refine ⟨?_, ?_, ?_, ?_, ?_, ?_⟩
  · intro m rest ec
    simp [validatorPhase, checkDocuments, checkDocumentsGo]
  · intro statuses ec h
    have hne : ((statuses.filter (fun s => s != "success")).length : Int) ≠ 0 := by
      exact_mod_cast h
    simp [validatorPhase, checkDocuments, checkDocumentsGo, hne]
  · intro t e docs ec h
    simp [checkDocCount, h]
  · intro resp chunk rest i acc tr ec m hr
    unfold uploadGo
    simp only [DRY_RUN, Bool.false_eq_true, if_false]
    rw [hr]
  · intro resp chunk rest i acc tr ec items hr hlen
    unfold uploadGo
    simp only [DRY_RUN, Bool.false_eq_true, if_false]
    rw [hr]
    simp only [hlen, ne_eq, if_true, not_false_eq_true]
  · intro w l r h
    obtain ⟨docs, ec2, _, _, _, _, hledger⟩ := start_ok_elim w l r h
    rw [hledger]

def wC9 : World :=
  { validatorOutcomes := [FetchOutcome.page ["error"] false]
    profileRaw := Except.ok []
    departureRaw := Except.ok []
    trialRaw := Except.ok []
    closingFilenamesRaw := Except.ok []
    apuRaw := Except.ok []
    annualRaw := Except.ok []
    apuContent := fun _ => Except.error "unused"
    uploadResp := fun _ c => ChunkResp.ok (c.map (fun _ => ⟨"https://store.test/d"⟩)) }

def ledgerC9 : Ledger := ⟨EXTRA_DOCS.map (fun u => ⟨u, "p", []⟩)⟩

def c9respErr : Nat → List Document → ChunkResp := fun _ _ => ChunkResp.httpError "boom"

def c9respShort : Nat → List Document → ChunkResp := fun _ _ => ChunkResp.ok [⟨"u"⟩]

theorem c9_witness :
    validatorPhase [FetchOutcome.fail "e"] none = (-1, some 58) ∧
    (validatorPhase [FetchOutcome.page ["error"] false] none).2 = some 58 ∧
    checkDocCount "profile" 800 [] none = some 59 ∧
    (uploadGo c9respErr [[createDocument "https://e.test/d.pdf"]] 0 [] [] none).exitCode =
      some 60 ∧
    (uploadGo c9respShort [[]] 0 [] [] none).exitCode = some 61 ∧
    ∃ r, start wC9 ledgerC9 = Except.ok r ∧
      r.ledger.documents = ledgerC9.documents ++ r.newDocs.map addedToEntry :=
  ⟨c9_exit_codes.1 "e" [] none,
    c9_exit_codes.2.1 ["error"] none (by decide),
    c9_exit_codes.2.2.1 "profile" 800 [] none (by decide),
    c9_exit_codes.2.2.2.1 c9respErr [createDocument "https://e.test/d.pdf"] [] 0 [] [] none
      "boom" rfl,
    c9_exit_codes.2.2.2.2.1 c9respShort [] [] 0 [] [] none [⟨"u"⟩] rfl (by decide),
    ⟨_, rfl, c9_exit_codes.2.2.2.2.2 wC9 ledgerC9 _ rfl⟩⟩

/-! ## Claim C4 -/

def skipUrl : String :=
  "https://www1.nyc.gov/assets/ccrb/downloads/pdf/APU-Documents/202306511-Tax968628%20-APU-Final-Documents.pdf"

def wC4A : World :=
  { validatorOutcomes := [FetchOutcome.page [] false]
    profileRaw := Except.ok [skipUrl]
    departureRaw := Except.ok []
    trialRaw := Except.ok []
    closingFilenamesRaw := Except.ok []
    apuRaw := Except.ok []
    annualRaw := Except.ok []
    apuContent := fun _ => Except.error "unused"
    uploadResp := fun _ c => ChunkResp.ok (c.map (fun _ => ⟨"https://store.test/d"⟩)) }

def wC4B : World :=
  { wC4A with
    profileRaw := Except.ok ["https://e.test/new1.pdf"]
    uploadResp := fun _ _ => ChunkResp.httpError "boom" }

/-- C4 counterexample, refuting the claim as stated on two points.  First, a
skip-listed URL among the candidates is never written to the ledger, so on
the second run it is a candidate that is NOT in the KnownURLs set derived
from the first run's ledger.  Second, when the first run's upload aborts,
the ledger does not absorb the candidate, so the second run's newDocuments
list is not empty. -/
theorem c4_counterexample :
    (∃ r1, start wC4A (Ledger.mk []) = Except.ok r1 ∧
      ∃ r2, start wC4A r1.ledger = Except.ok r2 ∧
        skipUrl ∈ r2.candidates ∧ skipUrl ∉ getExistingDocsSet r1.ledger) ∧
    (∃ r1, start wC4B (Ledger.mk []) = Except.ok r1 ∧
      newDocumentsOf r1.candidates (getExistingDocsSet r1.ledger) ≠ []) :=
  ⟨⟨_, rfl, _, rfl, by decide, by decide⟩, ⟨_, rfl, by decide⟩⟩

/-- C4 amended: when every chunk the first run submits is accepted with a
matching count, a second run against the same world creates zero new
documents: every candidate of the second run is either in the KnownURLs set
derived from the first run's saved ledger or in the skip list, so
newDocuments is empty and the ledger is unchanged. -/
theorem c4_idempotent (w : World) (ledger : Ledger) (r1 : RunResult)
    (hresp : ∀ i c, okMatching (w.uploadResp i c) c)
    (h1 : start w ledger = Except.ok r1) :
    ∃ r2, start w r1.ledger = Except.ok r2 ∧
      (∀ u ∈ r2.candidates, u ∈ getExistingDocsSet r1.ledger ∨ u ∈ DOCS_TO_SKIP) ∧
      newDocumentsOf r2.candidates (getExistingDocsSet r1.ledger) = [] ∧
      r2.newDocs = [] ∧ r2.ledger = r1.ledger := by
  obtain ⟨docs, ec2, hagg, hcand, hnew, _, hledger⟩ := start_ok_elim w ledger r1 h1
  have hprocess : (processDocs w.uploadResp docs (getExistingDocsSet ledger) ec2).addedDocs =
      accRows w.uploadResp (chunkDocs (newDocumentsOf docs (getExistingDocsSet ledger))) 0 := by
    unfold processDocs uploadDocs
    rw [uploadGo_ok_spec w.uploadResp hresp]
    simp
  have hsrc : r1.newDocs.map (fun a => a.source_url) =
      (newDocumentsOf docs (getExistingDocsSet ledger)).map (fun d => d.file_url) := by
    rw [hnew, hprocess, accRows_map_source w.uploadResp hresp, chunkDocs_flatten]
  have hsub : ∀ u, u ∈ getExistingDocsSet ledger → u ∈ getExistingDocsSet r1.ledger := by
    intro u hu
    rw [mem_getExistingDocsSet] at hu ⊢
    rw [hledger]
    rcases hu with ⟨e, he, hs⟩ | ⟨e, he, ha⟩
    · exact Or.inl ⟨e, List.mem_append_left _ he, hs⟩
    · exact Or.inr ⟨e, List.mem_append_left _ he, ha⟩
  have hacc : ∀ u,
      u ∈ (newDocumentsOf docs (getExistingDocsSet ledger)).map (fun d => d.file_url) →
      u ∈ getExistingDocsSet r1.ledger := by
    intro u hu
    rw [← hsrc] at hu
    rcases List.mem_map.1 hu with ⟨a, haMem, hasrc⟩
    rw [mem_getExistingDocsSet, hledger]
    exact Or.inl ⟨addedToEntry a,
      List.mem_append_right _ (List.mem_map_of_mem addedToEntry haMem), hasrc⟩
  have hagg2 : aggregatedDocs w (getExistingDocsSet r1.ledger)
      (validatorPhase w.validatorOutcomes none).2 = Except.ok (docs, ec2) := by
    rw [aggregatedDocs_indep w (getExistingDocsSet r1.ledger) (getExistingDocsSet ledger)]
    exact hagg
  have hcover : ∀ u ∈ docs, u ∈ getExistingDocsSet r1.ledger ∨ u ∈ DOCS_TO_SKIP := by
    intro u hu
    rcases processDocsLoop_covers docs (getExistingDocsSet ledger) u hu with hc | hc | hc
    · exact Or.inl (hsub u hc)
    · exact Or.inr hc
    · exact Or.inl (hacc u hc)
  have hnil : newDocumentsOf docs (getExistingDocsSet r1.ledger) = [] :=
    processDocsLoop_nil docs (getExistingDocsSet r1.ledger) hcover
  have hpd2 : processDocs w.uploadResp docs (getExistingDocsSet r1.ledger) ec2 =
      ⟨[], [], ec2⟩ := by
    unfold processDocs uploadDocs
    rw [hnil]
    rw [show chunkDocs [] = [] from rfl]
    rw [uploadGo_ok_spec w.uploadResp hresp]
    simp [accRows, chunkEvents]
  refine ⟨{ ledger := ⟨r1.ledger.documents ++ ([] : List Added).map addedToEntry⟩
            newDocs := []
            exitCode := ec2
            candidates := docs }, ?_, ?_, hnil, rfl, ?_⟩
  · simp only [start, hagg2, hpd2]
  · intro u hu
    exact hcover u hu
  · simp

theorem c4_witness :
    (∀ i c, okMatching (wC4A.uploadResp i c) c) ∧
    ∃ r1, start wC4A (Ledger.mk []) = Except.ok r1 ∧
      ∃ r2, start wC4A r1.ledger = Except.ok r2 ∧
        (∀ u ∈ r2.candidates, u ∈ getExistingDocsSet r1.ledger ∨ u ∈ DOCS_TO_SKIP) ∧
        newDocumentsOf r2.candidates (getExistingDocsSet r1.ledger) = [] ∧
        r2.newDocs = [] ∧ r2.ledger = r1.ledger :=
  ⟨fun i c => by simp [wC4A, okMatching],
    ⟨_, rfl, c4_idempotent wC4A (Ledger.mk []) _
      (fun i c => by simp [wC4A, okMatching]) rfl⟩⟩
